import Mathlib

/-!
Verification of the model-export orchestration in
`mlflow_export_import/model/export_model.py` (class `ModelExporter`).

The Python code is shallowly embedded as pure Lean functions.  External
collaborators (the HTTP registry client, the mlflow tracking client, the
run exporter, the filesystem abstraction) are modelled by an environment
`Env` of call results; every collaborator call is also recorded as an
`Event` in a trace, so ordering and argument-passing properties can be
stated.  Python exceptions are modelled by the `Exc` type, split into the
two kinds the code distinguishes: `mlflow.exceptions.RestException`
(`Exc.rest`) and every other exception type (`Exc.other`) — the inner
`except` clause of `_export_model` catches only `RestException`.
-/

/-- Embedding of Python `str.lower` (ASCII case folding, which is all the
stage vocabulary uses). -/
def strLower (s : String) : String := ⟨s.data.map Char.toLower⟩

/-- Embedding of Python `str.split(",")`; on the empty string it yields
`[""]`, exactly as in Python. -/
def strSplitComma (s : String) : List String := (s.data.splitOn ',').map (⟨·⟩)

/-- Left-to-right non-overlapping replacement on character lists, fuelled
by the input length so the recursion is structural. -/
def replaceAux (pat rep : List Char) : Nat → List Char → List Char
  | 0, s => s
  | _, [] => []
  | fuel+1, c :: cs =>
    if pat.isPrefixOf (c :: cs) then rep ++ replaceAux pat rep fuel ((c :: cs).drop pat.length)
    else c :: replaceAux pat rep fuel cs

/-- Embedding of Python `str.replace(pat, rep)` (replace every
non-overlapping occurrence, left to right). -/
def pyReplace (s pat rep : String) : String :=
  ⟨replaceAux pat.data rep.data s.data.length s.data⟩

/-- Embedding of POSIX `os.path.join a b`: an absolute `b` wins, otherwise
the parts are glued with a single separator. -/
def posixJoin (a b : String) : String :=
  if b.data.head? = some '/' then b
  else if a.data = [] then b
  else if a.data.getLast? = some '/' then ⟨a.data ++ b.data⟩
  else ⟨a.data ++ '/' :: b.data⟩

/-- The keys of `mlflow.entities.model_registry.model_version_stages._CANONICAL_MAPPING`:
the lower-cased canonical stage vocabulary. -/
def canonicalStages : List String := ["none", "staging", "production", "archived"]

/-- The `stages` argument of `ModelExporter.__init__` / `normalize_stages`:
Python `None`, a single string, or a list of strings. -/
inductive StagesArg
  | noneArg : StagesArg
  | strArg (s : String) : StagesArg
  | listArg (l : List String) : StagesArg

/-- Embedding of `ModelExporter.normalize_stages`: `None` becomes the empty
filter, a string is split on commas, and every entry is lower-cased.
Warnings for unrecognized entries are printed, not returned, so they do not
affect this value; see `stage_warnings`. -/
def normalize_stages : StagesArg → List String
  | StagesArg.noneArg => []
  | StagesArg.strArg s => (strSplitComma s).map strLower
  | StagesArg.listArg l => l.map strLower

/-- The entries `normalize_stages` prints a `WARNING:` line for: the
(lower-cased) entries of the resulting filter that are not keys of the
canonical stage mapping.  The loop in the source warns and keeps going; it
never raises and never removes an entry. -/
def stage_warnings (a : StagesArg) : List String :=
  (normalize_stages a).filter (fun st => !canonicalStages.contains st)

/-- A model version as returned by `mlflow_client.search_model_versions`:
the three fields `_export_model` reads. -/
structure ModelVersion where
  version : String
  current_stage : String
  run_id : String
deriving DecidableEq

/-- The part of `mlflow_client.get_run(run_id)` the code reads:
`run.info.artifact_uri` and `run.info.experiment_id`. -/
structure RunInfo where
  artifact_uri : String
  experiment_id : String
deriving DecidableEq

/-- The part of `mlflow.get_experiment(experiment_id)` the code reads. -/
structure Experiment where
  name : String
deriving DecidableEq

/-- The enriched version descriptor the loop appends to
`model["registered_model"]["latest_versions"]`: `dict(vr)` plus the
`_run_artifact_uri` and `_experiment_name` keys. -/
structure EnrichedVersion where
  version : String
  current_stage : String
  run_id : String
  run_artifact_uri : String
  experiment_name : String
deriving DecidableEq

/-- The registered-model descriptor fetched from
`registered-models/get` (the `model` dict).  `info` stands for all fields
other than the embedded `registered_model.latest_versions` list, which the
code clears and repopulates. -/
structure RegisteredModel where
  info : String
  latest_versions : List EnrichedVersion
deriving DecidableEq

/-- One manifest entry: the dict
`{"version": vr.version, "stage": vr.current_stage, "run_id": run_id}`. -/
structure ManifestEntry where
  version : String
  stage : String
  run_id : String
deriving DecidableEq

/-- A Python exception, split by the only distinction `_export_model`'s
`except` clause makes: `mlflow.exceptions.RestException` versus any other
exception type. -/
inductive Exc
  | rest (msg : String) : Exc
  | other (msg : String) : Exc
deriving DecidableEq

/-- A collaborator call made by `_export_model`, recorded with its
arguments (and, for the final write, the written document). -/
inductive Event
  | getFilesystem (dir : String) : Event
  | httpGetModel (name : String) : Event
  | mkdirs (dir : String) : Event
  | searchVersions (name : String) : Event
  | exportRun (run_id : String) (opath : String) : Event
  | getRun (run_id : String) : Event
  | getExperiment (experiment_id : String) : Event
  | writeJson (path : String) (doc : RegisteredModel) : Event
deriving DecidableEq

/-- The behaviour of the external collaborators during one export call:
what each call returns, or the exception it raises. -/
structure Env where
  getFilesystem : Except Exc Unit
  httpGetModel : Except Exc RegisteredModel
  mkdirs : Except Exc Unit
  searchVersions : Except Exc (List ModelVersion)
  exportRunResult : String → String → Except Exc Unit
  getRun : String → Except Exc RunInfo
  getExperiment : String → Except Exc Experiment
  writeJson : Except Exc Unit

/-- The per-version output path:
`os.path.join(output_dir, run_id).replace("dbfs:", "/dbfs")`. -/
def mkOpath (output_dir run_id : String) : String :=
  pyReplace (posixJoin output_dir run_id) "dbfs:" "/dbfs"

/-- The skip test at the top of the loop body:
`len(self.stages) > 0 and not vr.current_stage.lower() in self.stages`. -/
def skipsVersion (stages : List String) (vr : ModelVersion) : Bool :=
  decide (stages.length > 0) && !(stages.contains (strLower vr.current_stage))

/-- The manifest dict built for a version that passed the stage filter. -/
def toManifestEntry (vr : ModelVersion) : ManifestEntry :=
  ⟨vr.version, vr.current_stage, vr.run_id⟩

/-- The enrichment part of the `try` block: `get_run(run_id)`, then
`mlflow.get_experiment(run.info.experiment_id)`, building the enriched
descriptor.  Returns the calls attempted and either the descriptor or the
first exception raised. -/
def enrichSteps (env : Env) (vr : ModelVersion) :
    List Event × Except Exc EnrichedVersion :=
  match env.getRun vr.run_id with
  | Except.error e => ([Event.getRun vr.run_id], Except.error e)
  | Except.ok run =>
    match env.getExperiment run.experiment_id with
    | Except.error e =>
        ([Event.getRun vr.run_id, Event.getExperiment run.experiment_id], Except.error e)
    | Except.ok ex =>
        ([Event.getRun vr.run_id, Event.getExperiment run.experiment_id],
         Except.ok ⟨vr.version, vr.current_stage, vr.run_id, run.artifact_uri, ex.name⟩)

/-- The whole `try` block body for one version: the run export (when
enabled) followed by the enrichment.  Returns the calls attempted and
either the enriched descriptor or the exception that escaped the block. -/
def runVersionSteps (env : Env) (export_run : Bool) (opath : String) (vr : ModelVersion) :
    List Event × Except Exc EnrichedVersion :=
  if export_run then
    match env.exportRunResult vr.run_id opath with
    | Except.error e => ([Event.exportRun vr.run_id opath], Except.error e)
    | Except.ok _ =>
      let r := enrichSteps env vr
      (Event.exportRun vr.run_id opath :: r.1, r.2)
  else enrichSteps env vr

/-- The mutable state of `_export_model`'s loop: the `manifest` list, the
accumulating `latest_versions` list, the `exported_versions` counter, and
the trace of collaborator calls so far. -/
structure LoopSt where
  manifest : List ManifestEntry
  latest : List EnrichedVersion
  exported : Nat
  events : List Event
deriving DecidableEq

/-- One iteration of the `for vr in versions` loop.  A `RestException` is
caught (warning or traceback, then continue); any other exception
propagates, returned as `some e`. -/
def processVersion (env : Env) (export_run : Bool) (stages : List String)
    (output_dir : String) (vr : ModelVersion) (st : LoopSt) : LoopSt × Option Exc :=
  if skipsVersion stages vr then (st, none)
  else
    let r := runVersionSteps env export_run (mkOpath output_dir vr.run_id) vr
    let st1 : LoopSt :=
      { st with manifest := st.manifest ++ [toManifestEntry vr], events := st.events ++ r.1 }
    match r.2 with
    | Except.ok enr =>
        ({ st1 with latest := st1.latest ++ [enr], exported := st1.exported + 1 }, none)
    | Except.error (Exc.rest _) => (st1, none)
    | Except.error (Exc.other m) => (st1, some (Exc.other m))

/-- The `for vr in versions` loop; stops early when an uncaught exception
propagates out of an iteration. -/
def exportLoop (env : Env) (export_run : Bool) (stages : List String)
    (output_dir : String) : List ModelVersion → LoopSt → LoopSt × Option Exc
  | [], st => (st, none)
  | vr :: rest, st =>
    match processVersion env export_run stages output_dir vr st with
    | (st1, none) => exportLoop env export_run stages output_dir rest st1
    | (st1, some e) => (st1, some e)

/-- Decidable equality for `Except`, needed so concrete runs of the
embedding can be checked by `decide`. -/
instance exceptDecEq {ε α : Type} [DecidableEq ε] [DecidableEq α] :
    DecidableEq (Except ε α) := fun x y =>
  match x, y with
  | Except.ok a, Except.ok b =>
    if h : a = b then isTrue (h ▸ rfl) else isFalse (fun hc => h (Except.ok.inj hc))
  | Except.error a, Except.error b =>
    if h : a = b then isTrue (h ▸ rfl) else isFalse (fun hc => h (Except.error.inj hc))
  | Except.ok _, Except.error _ => isFalse (fun hc => Except.noConfusion hc)
  | Except.error _, Except.ok _ => isFalse (fun hc => Except.noConfusion hc)

/-- The observable outcome of one `_export_model` call: the trace, the
final values of the loop state, and either the returned manifest or the
exception that escaped. -/
structure ExportResult where
  events : List Event
  manifest : List ManifestEntry
  latest : List EnrichedVersion
  exported : Nat
  result : Except Exc (List ManifestEntry)
deriving DecidableEq

/-- Embedding of `ModelExporter._export_model(output_dir, model_name)`:
resolve the filesystem, fetch the registered model over HTTP, create the
output directory, clear `latest_versions`, list the versions, run the
per-version loop, and finally write `model.json` under `output_dir`,
returning the manifest. -/
def _export_model (env : Env) (export_run : Bool) (stages : List String)
    (output_dir model_name : String) : ExportResult :=
  let evs0 := [Event.getFilesystem output_dir]
  match env.getFilesystem with
  | Except.error e => ⟨evs0, [], [], 0, Except.error e⟩
  | Except.ok _ =>
    let evs1 := evs0 ++ [Event.httpGetModel model_name]
    match env.httpGetModel with
    | Except.error e => ⟨evs1, [], [], 0, Except.error e⟩
    | Except.ok model =>
      let evs2 := evs1 ++ [Event.mkdirs output_dir]
      match env.mkdirs with
      | Except.error e => ⟨evs2, [], [], 0, Except.error e⟩
      | Except.ok _ =>
        let model1 : RegisteredModel := { model with latest_versions := [] }
        let evs3 := evs2 ++ [Event.searchVersions model_name]
        match env.searchVersions with
        | Except.error e => ⟨evs3, [], [], 0, Except.error e⟩
        | Except.ok versions =>
          let r := exportLoop env export_run stages output_dir versions ⟨[], [], 0, evs3⟩
          match r.2 with
          | some e => ⟨r.1.events, r.1.manifest, r.1.latest, r.1.exported, Except.error e⟩
          | none =>
            let model2 : RegisteredModel := { model1 with latest_versions := r.1.latest }
            let path := posixJoin output_dir "model.json"
            let evs4 := r.1.events ++ [Event.writeJson path model2]
            match env.writeJson with
            | Except.error e =>
                ⟨evs4, r.1.manifest, r.1.latest, r.1.exported, Except.error e⟩
            | Except.ok _ =>
                ⟨evs4, r.1.manifest, r.1.latest, r.1.exported, Except.ok r.1.manifest⟩

/-- Embedding of the public `ModelExporter.export_model`: run
`_export_model` inside `try`, returning `(True, model_name)` on success and
`(False, model_name)` when any exception reaches the boundary. -/
def export_model (env : Env) (export_run : Bool) (stages : List String)
    (output_dir model_name : String) : List Event × (Bool × String) :=
  let r := _export_model env export_run stages output_dir model_name
  match r.result with
  | Except.ok _ => (r.events, (true, model_name))
  | Except.error _ => (r.events, (false, model_name))

/-- The versions that pass the stage filter, in source order: those the
loop body does not `continue` past. -/
def attemptedVersions (stages : List String) (versions : List ModelVersion) :
    List ModelVersion :=
  versions.filter (fun vr => !skipsVersion stages vr)

/-- The outcome of one version's `try` block, as an `Option`: `some` the
enriched descriptor on success, `none` when the block raised. -/
def enrichOf (env : Env) (export_run : Bool) (output_dir : String)
    (vr : ModelVersion) : Option EnrichedVersion :=
  (runVersionSteps env export_run (mkOpath output_dir vr.run_id) vr).2.toOption

/-- The enriched descriptors of the versions whose `try` block succeeded,
in source order: the final content of `latest_versions`. -/
def successEnriched (env : Env) (export_run : Bool) (output_dir : String)
    (stages : List String) (versions : List ModelVersion) : List EnrichedVersion :=
  (attemptedVersions stages versions).filterMap (enrichOf env export_run output_dir)

/-! ## Concrete collaborator environments used as witnesses and counterexamples -/

/-- A run whose export and lookups all succeed. -/
def envC1 : Env :=
  { getFilesystem := Except.ok ()
    httpGetModel := Except.ok ⟨"model-meta", []⟩
    mkdirs := Except.ok ()
    searchVersions := Except.ok [⟨"1", "Production", "r1"⟩]
    exportRunResult := fun _ _ => Except.ok ()
    getRun := fun _ => Except.ok ⟨"s3://bucket/art", "e1"⟩
    getExperiment := fun _ => Except.ok ⟨"exp1"⟩
    writeJson := Except.ok () }

/-- The single version of `envC2x` / `envC2w`. -/
def vC2 : ModelVersion := ⟨"1", "None", "r1"⟩

/-- A run where the version's metadata lookup raises a non-`RestException`
(for example an OS or connection error). -/
def envC2x : Env :=
  { getFilesystem := Except.ok ()
    httpGetModel := Except.ok ⟨"model-meta", []⟩
    mkdirs := Except.ok ()
    searchVersions := Except.ok [vC2]
    exportRunResult := fun _ _ => Except.ok ()
    getRun := fun _ => Except.error (Exc.other "connection reset")
    getExperiment := fun _ => Except.ok ⟨"exp1"⟩
    writeJson := Except.ok () }

/-- A run where the version's metadata lookup raises a `RestException`. -/
def envC2w : Env :=
  { getFilesystem := Except.ok ()
    httpGetModel := Except.ok ⟨"model-meta", []⟩
    mkdirs := Except.ok ()
    searchVersions := Except.ok [vC2]
    exportRunResult := fun _ _ => Except.ok ()
    getRun := fun _ => Except.error (Exc.rest "INTERNAL_ERROR: boom")
    getExperiment := fun _ => Except.ok ⟨"exp1"⟩
    writeJson := Except.ok () }

/-- First version of the C3 runs. -/
def vC3a : ModelVersion := ⟨"1", "Production", "r1"⟩

/-- Second version of the C3 runs. -/
def vC3b : ModelVersion := ⟨"2", "Production", "r2"⟩

/-- A run with two versions passing the filter where the first one's
enrichment raises a non-`RestException`. -/
def envC3x : Env :=
  { getFilesystem := Except.ok ()
    httpGetModel := Except.ok ⟨"model-meta", []⟩
    mkdirs := Except.ok ()
    searchVersions := Except.ok [vC3a, vC3b]
    exportRunResult := fun _ _ => Except.ok ()
    getRun := fun rid => if rid = "r1" then Except.error (Exc.other "connection reset")
      else Except.ok ⟨"s3://bucket/art", "e1"⟩
    getExperiment := fun _ => Except.ok ⟨"exp1"⟩
    writeJson := Except.ok () }

/-- A run with two versions where the first one's enrichment raises a
`RestException` and the second succeeds. -/
def envC3w : Env :=
  { getFilesystem := Except.ok ()
    httpGetModel := Except.ok ⟨"model-meta", []⟩
    mkdirs := Except.ok ()
    searchVersions := Except.ok [vC3a, vC3b]
    exportRunResult := fun _ _ => Except.ok ()
    getRun := fun rid => if rid = "r1" then Except.error (Exc.rest "RESOURCE_DOES_NOT_EXIST: Run")
      else Except.ok ⟨"s3://bucket/art", "e1"⟩
    getExperiment := fun _ => Except.ok ⟨"exp1"⟩
    writeJson := Except.ok () }

/-- A run with one successful version and one whose run was deleted
(`RESOURCE_DOES_NOT_EXIST` `RestException`). -/
def envC4w : Env :=
  { getFilesystem := Except.ok ()
    httpGetModel := Except.ok ⟨"model-meta", []⟩
    mkdirs := Except.ok ()
    searchVersions := Except.ok [⟨"1", "Production", "r1"⟩, ⟨"2", "Archived", "r2"⟩]
    exportRunResult := fun _ _ => Except.ok ()
    getRun := fun rid => if rid = "r2" then Except.error (Exc.rest "RESOURCE_DOES_NOT_EXIST: Run")
      else Except.ok ⟨"s3://bucket/art", "e1"⟩
    getExperiment := fun _ => Except.ok ⟨"exp1"⟩
    writeJson := Except.ok () }

/-- A run with one successful version and one `RestException` failure, used
to exercise the latest-versus-manifest length relation. -/
def envC5w : Env :=
  { getFilesystem := Except.ok ()
    httpGetModel := Except.ok ⟨"model-meta", []⟩
    mkdirs := Except.ok ()
    searchVersions := Except.ok [⟨"1", "Production", "r1"⟩, ⟨"2", "Archived", "r2"⟩]
    exportRunResult := fun _ _ => Except.ok ()
    getRun := fun rid => if rid = "r2" then Except.error (Exc.rest "RESOURCE_DOES_NOT_EXIST: Run")
      else Except.ok ⟨"s3://bucket/art", "e1"⟩
    getExperiment := fun _ => Except.ok ⟨"exp1"⟩
    writeJson := Except.ok () }

/-- A successful run whose output directory uses the `dbfs:` scheme. -/
def envC7w : Env :=
  { getFilesystem := Except.ok ()
    httpGetModel := Except.ok ⟨"model-meta", []⟩
    mkdirs := Except.ok ()
    searchVersions := Except.ok [⟨"1", "Production", "r1"⟩]
    exportRunResult := fun _ _ => Except.ok ()
    getRun := fun _ => Except.ok ⟨"s3://bucket/art", "e1"⟩
    getExperiment := fun _ => Except.ok ⟨"exp1"⟩
    writeJson := Except.ok () }

/-- A successful run with one version, used to inspect the written
`model.json` document. -/
def envC8w : Env :=
  { getFilesystem := Except.ok ()
    httpGetModel := Except.ok ⟨"model-meta", []⟩
    mkdirs := Except.ok ()
    searchVersions := Except.ok [⟨"1", "Production", "r1"⟩]
    exportRunResult := fun _ _ => Except.ok ()
    getRun := fun _ => Except.ok ⟨"s3://bucket/art", "e1"⟩
    getExperiment := fun _ => Except.ok ⟨"exp1"⟩
    writeJson := Except.ok () }

/-- A fully successful run with no versions, exposing the order of the
outer collaborator calls. -/
def envC9 : Env :=
  { getFilesystem := Except.ok ()
    httpGetModel := Except.ok ⟨"model-meta", []⟩
    mkdirs := Except.ok ()
    searchVersions := Except.ok []
    exportRunResult := fun _ _ => Except.ok ()
    getRun := fun _ => Except.ok ⟨"s3://bucket/art", "e1"⟩
    getExperiment := fun _ => Except.ok ⟨"exp1"⟩
    writeJson := Except.ok () }

/-- A successful run with one version whose stage is a real stage name,
used with the empty-string stage filter. -/
def envC10w : Env :=
  { getFilesystem := Except.ok ()
    httpGetModel := Except.ok ⟨"model-meta", []⟩
    mkdirs := Except.ok ()
    searchVersions := Except.ok [⟨"1", "Production", "r1"⟩]
    exportRunResult := fun _ _ => Except.ok ()
    getRun := fun _ => Except.ok ⟨"s3://bucket/art", "e1"⟩
    getExperiment := fun _ => Except.ok ⟨"exp1"⟩
    writeJson := Except.ok () }

/-! ## Helper lemmas about the loop -/

/-- Equation lemma: the loop on the empty version list. -/
theorem exportLoop_nil (env : Env) (er : Bool) (stages : List String) (dir : String)
    (st : LoopSt) : exportLoop env er stages dir [] st = (st, none) := rfl

/-- Equation lemma: the loop on a nonempty version list. -/
theorem exportLoop_cons (env : Env) (er : Bool) (stages : List String) (dir : String)
    (vr : ModelVersion) (rest : List ModelVersion) (st : LoopSt) :
    exportLoop env er stages dir (vr :: rest) st =
      match processVersion env er stages dir vr st with
      | (st1, none) => exportLoop env er stages dir rest st1
      | (st1, some e) => (st1, some e) := rfl

/-- A skipped version leaves the loop state untouched. -/
theorem processVersion_skip (env : Env) (er : Bool) (stages : List String) (dir : String)
    (vr : ModelVersion) (st : LoopSt) (h : skipsVersion stages vr = true) :
    processVersion env er stages dir vr st = (st, none) := by
  unfold processVersion; simp [h]

/-- A version whose `try` block succeeds appends to the manifest, the
enriched list and the trace, and bumps the counter. -/
theorem processVersion_ok (env : Env) (er : Bool) (stages : List String) (dir : String)
    (vr : ModelVersion) (st : LoopSt) (enr : EnrichedVersion)
    (h : skipsVersion stages vr = false)
    (hr : (runVersionSteps env er (mkOpath dir vr.run_id) vr).2 = Except.ok enr) :
    processVersion env er stages dir vr st =
      ({ manifest := st.manifest ++ [toManifestEntry vr],
         latest := st.latest ++ [enr],
         exported := st.exported + 1,
         events := st.events ++ (runVersionSteps env er (mkOpath dir vr.run_id) vr).1 }, none) := by
  unfold processVersion; simp [h, hr]

/-- A version whose `try` block raises a `RestException` appends only to
the manifest and the trace; the loop continues. -/
theorem processVersion_rest (env : Env) (er : Bool) (stages : List String) (dir : String)
    (vr : ModelVersion) (st : LoopSt) (m : String)
    (h : skipsVersion stages vr = false)
    (hr : (runVersionSteps env er (mkOpath dir vr.run_id) vr).2 = Except.error (Exc.rest m)) :
    processVersion env er stages dir vr st =
      ({ manifest := st.manifest ++ [toManifestEntry vr],
         latest := st.latest,
         exported := st.exported,
         events := st.events ++ (runVersionSteps env er (mkOpath dir vr.run_id) vr).1 }, none) := by
  unfold processVersion; simp [h, hr]

/-- A version whose `try` block raises a non-`RestException` appends to the
manifest and the trace, and the exception propagates. -/
theorem processVersion_other (env : Env) (er : Bool) (stages : List String) (dir : String)
    (vr : ModelVersion) (st : LoopSt) (m : String)
    (h : skipsVersion stages vr = false)
    (hr : (runVersionSteps env er (mkOpath dir vr.run_id) vr).2 = Except.error (Exc.other m)) :
    processVersion env er stages dir vr st =
      ({ manifest := st.manifest ++ [toManifestEntry vr],
         latest := st.latest,
         exported := st.exported,
         events := st.events ++ (runVersionSteps env er (mkOpath dir vr.run_id) vr).1 },
       some (Exc.other m)) := by
  unfold processVersion; simp [h, hr]

/-- The enrichment steps never record a run-export call. -/
theorem enrichSteps_no_exportRun (env : Env) (vr : ModelVersion) (rid p : String) :
    Event.exportRun rid p ∉ (enrichSteps env vr).1 := by
  unfold enrichSteps
  cases hg : env.getRun vr.run_id with
  | error e => simp
  | ok run =>
    cases he : env.getExperiment run.experiment_id with
    | error e => simp [he]
    | ok ex => simp [he]

/-- The enrichment steps never record a document write. -/
theorem enrichSteps_no_writeJson (env : Env) (vr : ModelVersion) (p : String)
    (doc : RegisteredModel) : Event.writeJson p doc ∉ (enrichSteps env vr).1 := by
  unfold enrichSteps
  cases hg : env.getRun vr.run_id with
  | error e => simp
  | ok run =>
    cases he : env.getExperiment run.experiment_id with
    | error e => simp [he]
    | ok ex => simp [he]

/-- Any run-export call recorded by one version's `try` block carries that
version's run id and the derived per-run output path. -/
theorem runVersionSteps_exportRun_mem (env : Env) (er : Bool) (opath : String)
    (vr : ModelVersion) (rid p : String)
    (h : Event.exportRun rid p ∈ (runVersionSteps env er opath vr).1) :
    rid = vr.run_id ∧ p = opath := by
  unfold runVersionSteps at h
  cases er with
  | false =>
    simp at h
    exact absurd h (enrichSteps_no_exportRun env vr rid p)
  | true =>
    simp at h
    cases hx : env.exportRunResult vr.run_id opath with
    | error e => rw [hx] at h; simp at h; exact ⟨h.1, h.2⟩
    | ok u =>
      rw [hx] at h; simp at h
      rcases h with ⟨h1, h2⟩ | hmem
      · exact ⟨h1, h2⟩
      · exact absurd hmem (enrichSteps_no_exportRun env vr rid p)

/-- One version's `try` block never records a document write. -/
theorem runVersionSteps_no_writeJson (env : Env) (er : Bool) (opath : String)
    (vr : ModelVersion) (p : String) (doc : RegisteredModel) :
    Event.writeJson p doc ∉ (runVersionSteps env er opath vr).1 := by
  unfold runVersionSteps
  cases er with
  | false => simp; exact fun h => enrichSteps_no_writeJson env vr p doc (by simpa using h)
  | true =>
    cases hx : env.exportRunResult vr.run_id opath with
    | error e => simp [hx]
    | ok u =>
      simp [hx]
      exact fun h => enrichSteps_no_writeJson env vr p doc (by simpa using h)

/-- Filtering past a skipped version. -/
theorem attemptedVersions_cons_skip {stages : List String} {vr : ModelVersion}
    {rest : List ModelVersion} (h : skipsVersion stages vr = true) :
    attemptedVersions stages (vr :: rest) = attemptedVersions stages rest := by
  simp [attemptedVersions, List.filter_cons, h]

/-- Filtering keeps a version that passes the stage filter. -/
theorem attemptedVersions_cons_pass {stages : List String} {vr : ModelVersion}
    {rest : List ModelVersion} (h : skipsVersion stages vr = false) :
    attemptedVersions stages (vr :: rest) = vr :: attemptedVersions stages rest := by
  simp [attemptedVersions, List.filter_cons, h]

/-- When the loop finishes without an uncaught exception, its final
manifest is the initial one followed by one entry per version passing the
stage filter, and its final enriched list is the initial one followed by
the enriched descriptors of the versions whose `try` block succeeded. -/
theorem exportLoop_none_spec (env : Env) (er : Bool) (stages : List String) (dir : String)
    (versions : List ModelVersion) :
    ∀ (st st' : LoopSt), exportLoop env er stages dir versions st = (st', none) →
    st'.manifest = st.manifest ++ (attemptedVersions stages versions).map toManifestEntry ∧
    st'.latest = st.latest ++ (attemptedVersions stages versions).filterMap (enrichOf env er dir) := by
  induction versions with
  | nil =>
    intro st st' h
    rw [exportLoop_nil] at h
    simp only [Prod.mk.injEq] at h
    simp [← h.1, attemptedVersions]
  | cons vr rest ih =>
    intro st st' h
    rw [exportLoop_cons] at h
    cases hs : skipsVersion stages vr with
    | true =>
      rw [processVersion_skip env er stages dir vr st hs] at h
      rw [attemptedVersions_cons_skip hs]
      exact ih st st' h
    | false =>
      cases hr : (runVersionSteps env er (mkOpath dir vr.run_id) vr).2 with
      | ok enr =>
        rw [processVersion_ok env er stages dir vr st enr hs hr] at h
        have hrec := ih _ st' h
        have henr : enrichOf env er dir vr = some enr := by
          simp [enrichOf, hr, Except.toOption]
        rw [attemptedVersions_cons_pass hs]
        simp only [List.map_cons, List.filterMap_cons, henr] at hrec ⊢
        constructor
        · rw [hrec.1]; simp
        · rw [hrec.2]; simp
      | error e =>
        cases e with
        | rest m =>
          rw [processVersion_rest env er stages dir vr st m hs hr] at h
          have hrec := ih _ st' h
          have henr : enrichOf env er dir vr = none := by
            simp [enrichOf, hr, Except.toOption]
          rw [attemptedVersions_cons_pass hs]
          simp only [List.map_cons, List.filterMap_cons, henr] at hrec ⊢
          constructor
          · rw [hrec.1]; simp
          · rw [hrec.2]
        | other m =>
          rw [processVersion_other env er stages dir vr st m hs hr] at h
          simp at h

/-- When every version passing the filter fails, if at all, only with a
`RestException`, no exception escapes the loop. -/
theorem exportLoop_none_of_no_other (env : Env) (er : Bool) (stages : List String)
    (dir : String) (versions : List ModelVersion) :
    ∀ (st : LoopSt),
    (∀ vr ∈ attemptedVersions stages versions, ∀ m,
        (runVersionSteps env er (mkOpath dir vr.run_id) vr).2 ≠ Except.error (Exc.other m)) →
    (exportLoop env er stages dir versions st).2 = none := by
  induction versions with
  | nil => intro st _; rw [exportLoop_nil]
  | cons vr rest ih =>
    intro st H
    rw [exportLoop_cons]
    cases hs : skipsVersion stages vr with
    | true =>
      rw [processVersion_skip env er stages dir vr st hs]
      exact ih st (fun v hv => H v (by rw [attemptedVersions_cons_skip hs] at *; exact hv))
    | false =>
      have Hrest : ∀ v ∈ attemptedVersions stages rest, ∀ m,
          (runVersionSteps env er (mkOpath dir v.run_id) v).2 ≠ Except.error (Exc.other m) := by
        intro v hv
        exact H v (by rw [attemptedVersions_cons_pass hs]; exact List.mem_cons_of_mem _ hv)
      cases hr : (runVersionSteps env er (mkOpath dir vr.run_id) vr).2 with
      | ok enr =>
        rw [processVersion_ok env er stages dir vr st enr hs hr]
        exact ih _ Hrest
      | error e =>
        cases e with
        | rest m =>
          rw [processVersion_rest env er stages dir vr st m hs hr]
          exact ih _ Hrest
        | other m =>
          exact absurd hr
            (H vr (by rw [attemptedVersions_cons_pass hs]; exact List.mem_cons_self vr _) m)

/-- Loop invariant: the enriched list never gets longer than the manifest
(they grow together on success; only the manifest grows on failure). -/
theorem exportLoop_latest_le (env : Env) (er : Bool) (stages : List String) (dir : String)
    (versions : List ModelVersion) :
    ∀ (st : LoopSt), st.latest.length ≤ st.manifest.length →
    (exportLoop env er stages dir versions st).1.latest.length ≤
      (exportLoop env er stages dir versions st).1.manifest.length := by
  induction versions with
  | nil => intro st h; rw [exportLoop_nil]; exact h
  | cons vr rest ih =>
    intro st h
    rw [exportLoop_cons]
    cases hs : skipsVersion stages vr with
    | true => rw [processVersion_skip env er stages dir vr st hs]; exact ih st h
    | false =>
      cases hr : (runVersionSteps env er (mkOpath dir vr.run_id) vr).2 with
      | ok enr =>
        rw [processVersion_ok env er stages dir vr st enr hs hr]
        exact ih _ (by simp; omega)
      | error e =>
        cases e with
        | rest m =>
          rw [processVersion_rest env er stages dir vr st m hs hr]
          exact ih _ (by simp; omega)
        | other m =>
          rw [processVersion_other env er stages dir vr st m hs hr]
          simp; omega


/-- One loop iteration appends some events to the trace; none of them is a
document write, and any run-export call among them carries this version's
run id and derived output path. -/
theorem processVersion_events (env : Env) (er : Bool) (stages : List String) (dir : String)
    (vr : ModelVersion) (st : LoopSt) :
    ∃ evs, (processVersion env er stages dir vr st).1.events = st.events ++ evs ∧
      (∀ rid p, Event.exportRun rid p ∈ evs → rid = vr.run_id ∧ p = mkOpath dir vr.run_id) ∧
      (∀ p doc, Event.writeJson p doc ∉ evs) := by
  cases hs : skipsVersion stages vr with
  | true =>
    refine ⟨[], ?_, by simp, by simp⟩
    rw [processVersion_skip env er stages dir vr st hs]; simp
  | false =>
    refine ⟨(runVersionSteps env er (mkOpath dir vr.run_id) vr).1, ?_, ?_, ?_⟩
    · cases hr : (runVersionSteps env er (mkOpath dir vr.run_id) vr).2 with
      | ok enr => rw [processVersion_ok env er stages dir vr st enr hs hr]
      | error e =>
        cases e with
        | rest m => rw [processVersion_rest env er stages dir vr st m hs hr]
        | other m => rw [processVersion_other env er stages dir vr st m hs hr]
    · exact fun rid p h => runVersionSteps_exportRun_mem env er _ vr rid p h
    · exact fun p doc => runVersionSteps_no_writeJson env er _ vr p doc

/-- The loop only appends to the trace; the appended events contain no
document write, and every run-export call among them uses the derived
per-run output path for its run id. -/
theorem exportLoop_events_spec (env : Env) (er : Bool) (stages : List String) (dir : String)
    (versions : List ModelVersion) :
    ∀ (st : LoopSt), ∃ tail,
      (exportLoop env er stages dir versions st).1.events = st.events ++ tail ∧
      (∀ rid p, Event.exportRun rid p ∈ tail → p = mkOpath dir rid) ∧
      (∀ p doc, Event.writeJson p doc ∉ tail) := by
  induction versions with
  | nil =>
    intro st
    refine ⟨[], ?_, by simp, by simp⟩
    rw [exportLoop_nil]; simp
  | cons vr rest ih =>
    intro st
    obtain ⟨evs, hevs, hex, hwj⟩ := processVersion_events env er stages dir vr st
    cases hpv : processVersion env er stages dir vr st with
    | mk st1 err =>
      rw [hpv] at hevs
      rw [exportLoop_cons, hpv]
      cases err with
      | none =>
        dsimp only
        obtain ⟨tail, ht, htex, htwj⟩ := ih st1
        refine ⟨evs ++ tail, ?_, ?_, ?_⟩
        · rw [ht, hevs, List.append_assoc]
        · intro rid p hmem
          rcases List.mem_append.mp hmem with h1 | h2
          · obtain ⟨h1a, h1b⟩ := hex rid p h1
            rw [h1b, h1a]
          · exact htex rid p h2
        · intro p doc hmem
          rcases List.mem_append.mp hmem with h1 | h2
          · exact hwj p doc h1
          · exact htwj p doc h2
      | some e =>
        dsimp only
        refine ⟨evs, hevs, ?_, ?_⟩
        · intro rid p h1
          obtain ⟨h1a, h1b⟩ := hex rid p h1
          rw [h1b, h1a]
        · exact fun p doc h1 => hwj p doc h1

/-- When every version is skipped by the filter, the loop is a no-op. -/
theorem exportLoop_all_skipped (env : Env) (er : Bool) (stages : List String)
    (dir : String) (versions : List ModelVersion) :
    ∀ (st : LoopSt), (∀ vr ∈ versions, skipsVersion stages vr = true) →
    exportLoop env er stages dir versions st = (st, none) := by
  induction versions with
  | nil => intro st _; rw [exportLoop_nil]
  | cons vr rest ih =>
    intro st H
    rw [exportLoop_cons, processVersion_skip env er stages dir vr st (H vr (by simp))]
    exact ih st (fun v hv => H v (List.mem_cons_of_mem _ hv))

/-- A `filterMap` has the length of its input exactly when the function
succeeds on every element. -/
theorem length_filterMap_eq_iff {α β : Type} (f : α → Option β) :
    ∀ l : List α, ((l.filterMap f).length = l.length ↔ ∀ a ∈ l, (f a).isSome = true) := by
  intro l
  induction l with
  | nil => simp
  | cons a t ih =>
    cases hf : f a with
    | none =>
      simp only [List.filterMap_cons, hf, List.length_cons]
      constructor
      · intro h
        exfalso
        have := List.length_filterMap_le f t
        omega
      · intro h
        exact absurd (h a (by simp)) (by simp [hf])
    | some b =>
      simp only [List.filterMap_cons, hf, List.length_cons, Nat.add_right_cancel_iff, ih]
      constructor
      · intro h a' ha'
        rcases List.mem_cons.mp ha' with rfl | hmem
        · simp [hf]
        · exact h a' hmem
      · exact fun h a' ha' => h a' (List.mem_cons_of_mem _ ha')

/-- Destructor for a successful `_export_model` run: every outer
collaborator call succeeded, the loop finished without an uncaught
exception, and the result fields are the loop's final state together with
the final `model.json` write event. -/
theorem _export_model_ok_destruct (env : Env) (er : Bool) (stages : List String)
    (dir name : String) (m : List ManifestEntry)
    (h : (_export_model env er stages dir name).result = Except.ok m) :
    ∃ model versions st',
      env.httpGetModel = Except.ok model ∧
      env.searchVersions = Except.ok versions ∧
      exportLoop env er stages dir versions
        ⟨[], [], 0, [Event.getFilesystem dir, Event.httpGetModel name,
                     Event.mkdirs dir, Event.searchVersions name]⟩ = (st', none) ∧
      _export_model env er stages dir name =
        ⟨st'.events ++ [Event.writeJson (posixJoin dir "model.json")
            ⟨model.info, st'.latest⟩],
         st'.manifest, st'.latest, st'.exported, Except.ok st'.manifest⟩ := by
  cases hgf : env.getFilesystem with
  | error e => simp [_export_model, hgf] at h
  | ok u =>
    cases hhttp : env.httpGetModel with
    | error e => simp [_export_model, hgf, hhttp] at h
    | ok model =>
      cases hmk : env.mkdirs with
      | error e => simp [_export_model, hgf, hhttp, hmk] at h
      | ok u2 =>
        cases hsv : env.searchVersions with
        | error e => simp [_export_model, hgf, hhttp, hmk, hsv] at h
        | ok versions =>
          simp only [_export_model, hgf, hhttp, hmk, hsv, List.singleton_append,
            List.cons_append, List.nil_append] at h ⊢
          cases hl : exportLoop env er stages dir versions
              ⟨[], [], 0, [Event.getFilesystem dir, Event.httpGetModel name,
                           Event.mkdirs dir, Event.searchVersions name]⟩ with
          | mk st' err =>
            rw [hl] at h
            cases err with
            | some e => simp at h
            | none =>
              cases hwj : env.writeJson with
              | error e => rw [hwj] at h; simp at h
              | ok u3 =>
                refine ⟨model, versions, st', rfl, rfl, hl, ?_⟩
                dsimp only

/-! ## Claim theorems -/

/-- C1: for every output directory and model name, the top-level
`export_model` never raises: when the internal `_export_model` fails for
any reason the failure is caught and `(false, model_name)` is returned;
when it completes, `(true, model_name)` is returned. -/
theorem C1_export_model_never_raises (env : Env) (er : Bool) (stages : List String)
    (dir name : String) :
    ((∃ e, (_export_model env er stages dir name).result = Except.error e) →
      (export_model env er stages dir name).2 = (false, name)) ∧
    ((∃ m, (_export_model env er stages dir name).result = Except.ok m) →
      (export_model env er stages dir name).2 = (true, name)) := by
  constructor
  · rintro ⟨e, he⟩
    simp [export_model, he]
  · rintro ⟨m, hm⟩
    simp [export_model, hm]

/-- C1 witness: a concrete successful run returns `(true, "m")`, and a
concrete failing run returns `(false, "m")` with the failure caught. -/
theorem C1_export_model_never_raises_witness :
    (∃ m, (_export_model envC1 true [] "out" "m").result = Except.ok m) ∧
    (export_model envC1 true [] "out" "m").2 = (true, "m") := by
  have h : (∃ m, (_export_model envC1 true [] "out" "m").result = Except.ok m) :=
    ⟨[⟨"1", "Production", "r1"⟩], by decide⟩
  exact ⟨h, (C1_export_model_never_raises envC1 true [] "out" "m").2 h⟩

/-- C6: stage normalization maps an absent input to the empty filter,
splits a single string on commas, lower-cases every entry, warns (without
raising and without removing the entry) on entries outside the canonical
stage vocabulary, and preserves the count and order of entries. -/
theorem C6_normalize_stages_spec :
    normalize_stages StagesArg.noneArg = [] ∧
    (∀ s, normalize_stages (StagesArg.strArg s) = (strSplitComma s).map strLower) ∧
    (∀ l, normalize_stages (StagesArg.listArg l) = l.map strLower) ∧
    (∀ a st, st ∈ normalize_stages a → canonicalStages.contains st = false →
      st ∈ stage_warnings a) ∧
    (∀ s, (normalize_stages (StagesArg.strArg s)).length = (strSplitComma s).length) ∧
    (∀ l, (normalize_stages (StagesArg.listArg l)).length = l.length) := by
  refine ⟨rfl, fun s => rfl, fun l => rfl, ?_,
    fun s => by simp [normalize_stages], fun l => by simp [normalize_stages]⟩
  intro a st hmem hnc
  simp only [stage_warnings, List.mem_filter, hmem, hnc, true_and, Bool.not_false]

/-- C6 witness: the unrecognized entry "bogus" of the filter
"Production,Bogus" is warned about yet kept, and counts/orders are
preserved on that input. -/
theorem C6_normalize_stages_spec_witness :
    ("bogus" ∈ normalize_stages (StagesArg.strArg "Production,Bogus") ∧
      canonicalStages.contains "bogus" = false) ∧
    "bogus" ∈ stage_warnings (StagesArg.strArg "Production,Bogus") :=
  ⟨⟨by decide, by decide⟩,
    C6_normalize_stages_spec.2.2.2.1 (StagesArg.strArg "Production,Bogus") "bogus"
      (by decide) (by decide)⟩

/-- C10: the empty-string stages argument normalizes to the one-element
filter containing the empty string, which is non-empty and matches no real
version stage, so every version is skipped and both the manifest and the
enriched list come out empty. -/
theorem C10_empty_string_filter :
    normalize_stages (StagesArg.strArg "") = [""] ∧
    (normalize_stages (StagesArg.strArg "")).length > 0 ∧
    (∀ env er dir name versions,
      env.searchVersions = Except.ok versions →
      (∀ vr ∈ versions, strLower vr.current_stage ≠ "") →
      (_export_model env er (normalize_stages (StagesArg.strArg "")) dir name).manifest = [] ∧
      (_export_model env er (normalize_stages (StagesArg.strArg "")) dir name).latest = []) := by
  refine ⟨by decide, by decide, ?_⟩
  intro env er dir name versions hsv hst
  have hskip : ∀ vr ∈ versions,
      skipsVersion (normalize_stages (StagesArg.strArg "")) vr = true := by
    intro vr hvr
    have hne : strLower vr.current_stage ≠ "" := hst vr hvr
    show skipsVersion [""] vr = true
    simp [skipsVersion, List.contains_cons, hne]
  cases hgf : env.getFilesystem with
  | error e => simp [_export_model, hgf]
  | ok u =>
    cases hh : env.httpGetModel with
    | error e => simp [_export_model, hgf, hh]
    | ok model =>
      cases hmk : env.mkdirs with
      | error e => simp [_export_model, hgf, hh, hmk]
      | ok u2 =>
        simp only [_export_model, hgf, hh, hmk, hsv, List.singleton_append,
          List.cons_append, List.nil_append]
        rw [exportLoop_all_skipped env er (normalize_stages (StagesArg.strArg "")) dir versions
          ⟨[], [], 0, [Event.getFilesystem dir, Event.httpGetModel name,
                       Event.mkdirs dir, Event.searchVersions name]⟩ hskip]
        cases hwj : env.writeJson with
        | error e => simp [hwj]
        | ok u3 => simp [hwj]

/-- C10 witness: with the empty-string filter, a concrete run over one
Production version produces an empty manifest and an empty enriched
list. -/
theorem C10_empty_string_filter_witness :
    (envC10w.searchVersions = Except.ok [⟨"1", "Production", "r1"⟩] ∧
      (∀ vr ∈ [(⟨"1", "Production", "r1"⟩ : ModelVersion)], strLower vr.current_stage ≠ "")) ∧
    (_export_model envC10w true (normalize_stages (StagesArg.strArg "")) "out" "m").manifest = [] ∧
    (_export_model envC10w true (normalize_stages (StagesArg.strArg "")) "out" "m").latest = [] := by
  have h1 : envC10w.searchVersions = Except.ok [⟨"1", "Production", "r1"⟩] := rfl
  have h2 : ∀ vr ∈ [(⟨"1", "Production", "r1"⟩ : ModelVersion)],
      strLower vr.current_stage ≠ "" := by decide
  exact ⟨⟨h1, h2⟩, C10_empty_string_filter.2.2 envC10w true "out" "m" _ h1 h2⟩

/-- C4: the internal export procedure returns the manifest to its caller:
whenever `_export_model` completes, the value it returns is exactly the
ordered list of `{version, stage, run_id}` entries for every version that
passed the stage filter — every attempted version, not only the successes.
(The top-level `export_model` wrapper then reduces it to a boolean.) -/
theorem C4_returns_manifest (env : Env) (er : Bool) (stages : List String)
    (dir name : String) (versions : List ModelVersion) (m : List ManifestEntry)
    (hsv : env.searchVersions = Except.ok versions)
    (h : (_export_model env er stages dir name).result = Except.ok m) :
    m = (attemptedVersions stages versions).map toManifestEntry := by
  obtain ⟨model, versions', st', hh', hsv', hl, heq⟩ :=
    _export_model_ok_destruct env er stages dir name m h
  rw [hsv] at hsv'
  injection hsv' with hv
  subst hv
  have hspec := exportLoop_none_spec env er stages dir versions _ st' hl
  have hm : (Except.ok m : Except Exc (List ManifestEntry)) = Except.ok st'.manifest := by
    rw [← h, heq]
  injection hm with hm
  rw [hm, hspec.1]
  simp

/-- C4 witness: a concrete run with one successful version and one whose
run lookup fails with a not-found `RestException` still returns both
entries. -/
theorem C4_returns_manifest_witness :
    (envC4w.searchVersions =
      Except.ok [⟨"1", "Production", "r1"⟩, ⟨"2", "Archived", "r2"⟩] ∧
     (_export_model envC4w true [] "out" "m").result =
      Except.ok [⟨"1", "Production", "r1"⟩, ⟨"2", "Archived", "r2"⟩]) ∧
    ([(⟨"1", "Production", "r1"⟩ : ManifestEntry), ⟨"2", "Archived", "r2"⟩] =
      (attemptedVersions [] [⟨"1", "Production", "r1"⟩, ⟨"2", "Archived", "r2"⟩]).map
        toManifestEntry) := by
  have h1 : envC4w.searchVersions =
      Except.ok [⟨"1", "Production", "r1"⟩, ⟨"2", "Archived", "r2"⟩] := rfl
  have h2 : (_export_model envC4w true [] "out" "m").result =
      Except.ok [⟨"1", "Production", "r1"⟩, ⟨"2", "Archived", "r2"⟩] := by decide
  exact ⟨⟨h1, h2⟩, C4_returns_manifest envC4w true [] "out" "m" _ _ h1 h2⟩

/-- C5: at every point of an export the enriched list is at most as long
as the manifest, and on completion the lengths are equal exactly when no
per-version failure occurred (every attempted version enriched
successfully). -/
theorem C5_latest_manifest_lengths :
    (∀ env er stages dir versions (st : LoopSt),
      st.latest.length ≤ st.manifest.length →
      (exportLoop env er stages dir versions st).1.latest.length ≤
        (exportLoop env er stages dir versions st).1.manifest.length) ∧
    (∀ env er stages dir name versions m,
      env.searchVersions = Except.ok versions →
      (_export_model env er stages dir name).result = Except.ok m →
      ((_export_model env er stages dir name).latest.length =
          (_export_model env er stages dir name).manifest.length ↔
        ∀ vr ∈ attemptedVersions stages versions, (enrichOf env er dir vr).isSome = true)) := by
  constructor
  · exact fun env er stages dir versions st h =>
      exportLoop_latest_le env er stages dir versions st h
  · intro env er stages dir name versions m hsv h
    obtain ⟨model, versions', st', hh', hsv', hl, heq⟩ :=
      _export_model_ok_destruct env er stages dir name m h
    rw [hsv] at hsv'
    injection hsv' with hv
    subst hv
    have hspec := exportLoop_none_spec env er stages dir versions _ st' hl
    rw [heq]
    dsimp only
    rw [hspec.1, hspec.2]
    simp only [List.nil_append, List.length_map]
    exact length_filterMap_eq_iff (enrichOf env er dir) (attemptedVersions stages versions)

/-- C5 witness: in a concrete completed run with one success and one
not-found failure, the enriched list is strictly shorter than the
manifest, matching the failed enrichment, and the length invariant holds
on a concrete loop state. -/
theorem C5_latest_manifest_lengths_witness :
    (envC5w.searchVersions =
        Except.ok [⟨"1", "Production", "r1"⟩, ⟨"2", "Archived", "r2"⟩] ∧
      (_export_model envC5w true [] "out" "m").result =
        Except.ok [⟨"1", "Production", "r1"⟩, ⟨"2", "Archived", "r2"⟩]) ∧
    ((_export_model envC5w true [] "out" "m").latest.length =
        (_export_model envC5w true [] "out" "m").manifest.length ↔
      ∀ vr ∈ attemptedVersions [] [⟨"1", "Production", "r1"⟩, ⟨"2", "Archived", "r2"⟩],
        (enrichOf envC5w true "out" vr).isSome = true) := by
  have h1 : envC5w.searchVersions =
      Except.ok [⟨"1", "Production", "r1"⟩, ⟨"2", "Archived", "r2"⟩] := rfl
  have h2 : (_export_model envC5w true [] "out" "m").result =
      Except.ok [⟨"1", "Production", "r1"⟩, ⟨"2", "Archived", "r2"⟩] := by decide
  exact ⟨⟨h1, h2⟩,
    C5_latest_manifest_lengths.2 envC5w true [] "out" "m" _ _ h1 h2⟩

/-- Membership-equivalent stage filters make the same skip decisions: the
skip test only uses emptiness and membership of the filter. -/
theorem skipsVersion_congr {stages stages' : List String}
    (h : ∀ x, x ∈ stages ↔ x ∈ stages') (vr : ModelVersion) :
    skipsVersion stages vr = skipsVersion stages' vr := by
  unfold skipsVersion
  have hc : stages.contains (strLower vr.current_stage)
      = stages'.contains (strLower vr.current_stage) := by
    rw [Bool.eq_iff_iff]
    constructor
    · intro hx
      exact List.elem_iff.mpr ((h _).mp (List.elem_iff.mp hx))
    · intro hx
      exact List.elem_iff.mpr ((h _).mpr (List.elem_iff.mp hx))
  have hlen : decide (stages.length > 0) = decide (stages'.length > 0) := by
    rcases stages with _ | ⟨a, t⟩
    · rcases hl' : stages' with _ | ⟨b, u⟩
      · rfl
      · exfalso
        have hb : b ∈ ([] : List String) := (h b).mpr (by rw [hl']; simp)
        simp at hb
    · rcases hl' : stages' with _ | ⟨b, u⟩
      · exfalso
        have ha : a ∈ stages' := (h a).mp (by simp)
        rw [hl'] at ha
        simp at ha
      · simp
  rw [hc, hlen]

/-- Membership-equivalent stage filters select the same versions. -/
theorem attemptedVersions_congr {stages stages' : List String}
    (h : ∀ x, x ∈ stages ↔ x ∈ stages') (versions : List ModelVersion) :
    attemptedVersions stages versions = attemptedVersions stages' versions := by
  unfold attemptedVersions
  exact List.filter_congr (fun vr _ => by rw [skipsVersion_congr h vr])

/-- C2 counterexample: a failure inside the per-version loop CAN abort the
whole model export.  In `envC2x` the single version's run lookup raises a
non-`RestException` ("connection reset", not the run-does-not-exist
condition); the inner `except mlflow.exceptions.RestException` clause does
not catch it, so the loop aborts and the whole export fails. -/
theorem C2_counterexample :
    (runVersionSteps envC2x true (mkOpath "out" vC2.run_id) vC2).2 =
        Except.error (Exc.other "connection reset") ∧
    (_export_model envC2x true [] "out" "m").result =
        Except.error (Exc.other "connection reset") ∧
    (export_model envC2x true [] "out" "m").2 = (false, "m") := by decide

/-- C2 (amended): every failure of the `RestException` kind — the only
kind the inner `except` clause catches, whether or not it is the
run-does-not-exist condition — lets processing continue to the next
version, and the loop still records every attempted version in the
manifest; a failure of any other exception type propagates and aborts the
model export (see the counterexample). -/
theorem C2_rest_failures_continue (env : Env) (er : Bool) (stages : List String)
    (dir : String) (versions : List ModelVersion) (st : LoopSt)
    (H : ∀ vr ∈ attemptedVersions stages versions, ∀ msg,
        (runVersionSteps env er (mkOpath dir vr.run_id) vr).2 ≠ Except.error (Exc.other msg)) :
    (exportLoop env er stages dir versions st).2 = none ∧
    (exportLoop env er stages dir versions st).1.manifest =
      st.manifest ++ (attemptedVersions stages versions).map toManifestEntry := by
  have hnone := exportLoop_none_of_no_other env er stages dir versions st H
  refine ⟨hnone, ?_⟩
  cases hl : exportLoop env er stages dir versions st with
  | mk st1 err =>
    rw [hl] at hnone
    dsimp only at hnone
    subst hnone
    exact (exportLoop_none_spec env er stages dir versions st st1 hl).1

/-- C2 witness: in a concrete run whose only version fails with a
`RestException`, the loop finishes without aborting and the manifest still
holds the attempted version. -/
theorem C2_rest_failures_continue_witness :
    (∀ vr ∈ attemptedVersions [] [vC2], ∀ msg,
        (runVersionSteps envC2w true (mkOpath "out" vr.run_id) vr).2 ≠
          Except.error (Exc.other msg)) ∧
    (exportLoop envC2w true [] "out" [vC2] ⟨[], [], 0, []⟩).2 = none ∧
    (exportLoop envC2w true [] "out" [vC2] ⟨[], [], 0, []⟩).1.manifest =
      [] ++ (attemptedVersions [] [vC2]).map toManifestEntry := by
  have H : ∀ vr ∈ attemptedVersions [] [vC2], ∀ msg,
      (runVersionSteps envC2w true (mkOpath "out" vr.run_id) vr).2 ≠
        Except.error (Exc.other msg) := by
    intro vr hvr msg hcontra
    rw [show attemptedVersions [] [vC2] = [vC2] from rfl, List.mem_singleton] at hvr
    subst hvr
    rw [show (runVersionSteps envC2w true (mkOpath "out" vC2.run_id) vC2).2 =
        Except.error (Exc.rest "INTERNAL_ERROR: boom") from by decide] at hcontra
    simp at hcontra
  exact ⟨H, C2_rest_failures_continue envC2w true [] "out" [vC2] ⟨[], [], 0, []⟩ H⟩

/-- C3 counterexample: manifest entries are NOT created for every version
passing the filter when an earlier version fails with a non-`RestException`.
In `envC3x` both versions pass the empty filter, but the first version's
enrichment raises "connection reset", aborting the loop before the second
version's entry is created. -/
theorem C3_counterexample :
    attemptedVersions [] [vC3a, vC3b] = [vC3a, vC3b] ∧
    ¬ ((_export_model envC3x true [] "out" "m").manifest =
        (attemptedVersions [] [vC3a, vC3b]).map toManifestEntry) := by decide

/-- C3 (amended): as long as every per-version failure is of the
`RestException` kind (the kind the loop catches), a manifest entry is
created exactly for the versions passing the stage filter — absent filter
or lower-cased stage in the filter — in source order, independently of the
filter's ordering and regardless of how many versions fail; a
non-`RestException` failure instead aborts the loop at that version (see
the counterexample). -/
theorem C3_manifest_matches_filter (env : Env) (er : Bool) (stages : List String)
    (dir : String) (versions : List ModelVersion) (st : LoopSt)
    (H : ∀ vr ∈ attemptedVersions stages versions, ∀ msg,
        (runVersionSteps env er (mkOpath dir vr.run_id) vr).2 ≠ Except.error (Exc.other msg)) :
    (exportLoop env er stages dir versions st).1.manifest =
      st.manifest ++ (versions.filter (fun vr => !skipsVersion stages vr)).map toManifestEntry ∧
    (∀ stages', (∀ x, x ∈ stages ↔ x ∈ stages') →
      attemptedVersions stages versions = attemptedVersions stages' versions) := by
  constructor
  · have hnone := exportLoop_none_of_no_other env er stages dir versions st H
    cases hl : exportLoop env er stages dir versions st with
    | mk st1 err =>
      rw [hl] at hnone
      dsimp only at hnone
      subst hnone
      exact (exportLoop_none_spec env er stages dir versions st st1 hl).1
  · exact fun stages' hmem => attemptedVersions_congr hmem versions

/-- C3 witness: with the filter `["production", "staging"]`, a concrete
run in which the first version fails with a not-found `RestException` and
the second succeeds still creates both manifest entries, and reordering
the filter selects the same versions. -/
theorem C3_manifest_matches_filter_witness :
    (∀ vr ∈ attemptedVersions ["production", "staging"] [vC3a, vC3b], ∀ msg,
        (runVersionSteps envC3w true (mkOpath "out" vr.run_id) vr).2 ≠
          Except.error (Exc.other msg)) ∧
    (exportLoop envC3w true ["production", "staging"] "out" [vC3a, vC3b]
        ⟨[], [], 0, []⟩).1.manifest =
      [] ++ ([vC3a, vC3b].filter
        (fun vr => !skipsVersion ["production", "staging"] vr)).map toManifestEntry ∧
    attemptedVersions ["production", "staging"] [vC3a, vC3b] =
      attemptedVersions ["staging", "production"] [vC3a, vC3b] := by
  have H : ∀ vr ∈ attemptedVersions ["production", "staging"] [vC3a, vC3b], ∀ msg,
      (runVersionSteps envC3w true (mkOpath "out" vr.run_id) vr).2 ≠
        Except.error (Exc.other msg) := by
    intro vr hvr msg hcontra
    rw [show attemptedVersions ["production", "staging"] [vC3a, vC3b] = [vC3a, vC3b]
      from by decide] at hvr
    rcases List.mem_cons.mp hvr with rfl | hvr2
    · rw [show (runVersionSteps envC3w true (mkOpath "out" vC3a.run_id) vC3a).2 =
          Except.error (Exc.rest "RESOURCE_DOES_NOT_EXIST: Run") from by decide] at hcontra
      simp at hcontra
    · rw [List.mem_singleton] at hvr2
      subst hvr2
      rw [show (runVersionSteps envC3w true (mkOpath "out" vC3b.run_id) vC3b).2 =
          Except.ok ⟨"2", "Production", "r2", "s3://bucket/art", "exp1"⟩
        from by decide] at hcontra
      simp at hcontra
  have hmem : ∀ x, x ∈ ["production", "staging"] ↔ x ∈ ["staging", "production"] := by
    intro x
    constructor <;> intro hx <;> simp at hx <;> rcases hx with rfl | rfl <;> simp
  have hc := C3_manifest_matches_filter envC3w true ["production", "staging"] "out"
    [vC3a, vC3b] ⟨[], [], 0, []⟩ H
  exact ⟨H, hc.1, hc.2 ["staging", "production"] hmem⟩

/-- C7: every per-run output path handed to the run exporter is the output
directory joined with the run id, with the `dbfs:` prefix rewritten to
`/dbfs`, while `model.json` is always written under the original,
unrewritten output directory. -/
theorem C7_per_run_paths (env : Env) (er : Bool) (stages : List String) (dir name : String) :
    (∀ rid p, Event.exportRun rid p ∈ (_export_model env er stages dir name).events →
      p = pyReplace (posixJoin dir rid) "dbfs:" "/dbfs") ∧
    (∀ p doc, Event.writeJson p doc ∈ (_export_model env er stages dir name).events →
      p = posixJoin dir "model.json") := by
  cases hgf : env.getFilesystem with
  | error e => constructor <;> intro a b h <;> simp [_export_model, hgf] at h
  | ok u =>
    cases hh : env.httpGetModel with
    | error e => constructor <;> intro a b h <;> simp [_export_model, hgf, hh] at h
    | ok model =>
      cases hmk : env.mkdirs with
      | error e => constructor <;> intro a b h <;> simp [_export_model, hgf, hh, hmk] at h
      | ok u2 =>
        cases hsv : env.searchVersions with
        | error e =>
          constructor <;> intro a b h <;> simp [_export_model, hgf, hh, hmk, hsv] at h
        | ok versions =>
          obtain ⟨tail, ht, htex, htwj⟩ := exportLoop_events_spec env er stages dir versions
            ⟨[], [], 0, [Event.getFilesystem dir, Event.httpGetModel name,
                         Event.mkdirs dir, Event.searchVersions name]⟩
          cases hl : exportLoop env er stages dir versions
              ⟨[], [], 0, [Event.getFilesystem dir, Event.httpGetModel name,
                           Event.mkdirs dir, Event.searchVersions name]⟩ with
          | mk st1 err =>
            rw [hl] at ht
            dsimp only at ht
            have hex1 : ∀ rid p, Event.exportRun rid p ∈ st1.events →
                p = pyReplace (posixJoin dir rid) "dbfs:" "/dbfs" := by
              intro rid p hmem
              rw [ht] at hmem
              rcases List.mem_append.mp hmem with h4 | htl
              · simp at h4
              · exact htex rid p htl
            have hwj1 : ∀ p doc, Event.writeJson p doc ∉ st1.events := by
              intro p doc hmem
              rw [ht] at hmem
              rcases List.mem_append.mp hmem with h4 | htl
              · simp at h4
              · exact htwj p doc htl
            simp only [_export_model, hgf, hh, hmk, hsv, List.singleton_append,
              List.cons_append, List.nil_append]
            rw [hl]
            cases err with
            | some e =>
              dsimp only
              exact ⟨fun rid p h => hex1 rid p h, fun p doc h => absurd h (hwj1 p doc)⟩
            | none =>
              cases hwj : env.writeJson with
              | error e =>
                dsimp only
                constructor
                · intro rid p h
                  rcases List.mem_append.mp h with h1 | h2
                  · exact hex1 rid p h1
                  · simp at h2
                · intro p doc h
                  rcases List.mem_append.mp h with h1 | h2
                  · exact absurd h1 (hwj1 p doc)
                  · simp at h2
                    exact h2.1
              | ok u3 =>
                dsimp only
                constructor
                · intro rid p h
                  rcases List.mem_append.mp h with h1 | h2
                  · exact hex1 rid p h1
                  · simp at h2
                · intro p doc h
                  rcases List.mem_append.mp h with h1 | h2
                  · exact absurd h1 (hwj1 p doc)
                  · simp at h2
                    exact h2.1

/-- C7 witness: with output directory `dbfs:/mnt/e`, the run exporter is
handed the rewritten path `/dbfs/mnt/e/r1`, while `model.json` goes under
the original `dbfs:` directory. -/
theorem C7_per_run_paths_witness :
    (Event.exportRun "r1" "/dbfs/mnt/e/r1" ∈
        (_export_model envC7w true [] "dbfs:/mnt/e" "m").events ∧
      "/dbfs/mnt/e/r1" = pyReplace (posixJoin "dbfs:/mnt/e" "r1") "dbfs:" "/dbfs") ∧
    (Event.writeJson "dbfs:/mnt/e/model.json"
        ⟨"model-meta", [⟨"1", "Production", "r1", "s3://bucket/art", "exp1"⟩]⟩ ∈
        (_export_model envC7w true [] "dbfs:/mnt/e" "m").events ∧
      "dbfs:/mnt/e/model.json" = posixJoin "dbfs:/mnt/e" "model.json") := by
  have hex : Event.exportRun "r1" "/dbfs/mnt/e/r1" ∈
      (_export_model envC7w true [] "dbfs:/mnt/e" "m").events := by decide
  have hwj : Event.writeJson "dbfs:/mnt/e/model.json"
      ⟨"model-meta", [⟨"1", "Production", "r1", "s3://bucket/art", "exp1"⟩]⟩ ∈
      (_export_model envC7w true [] "dbfs:/mnt/e" "m").events := by decide
  exact ⟨⟨hex, (C7_per_run_paths envC7w true [] "dbfs:/mnt/e" "m").1 "r1" _ hex⟩,
    ⟨hwj, (C7_per_run_paths envC7w true [] "dbfs:/mnt/e" "m").2 _ _ hwj⟩⟩

/-- C8: the document written to `output_dir/model.json` is exactly the
registered-model descriptor fetched from the registry with only its
embedded `latest_versions` list modified — reset and repopulated with
precisely the enriched descriptors of the successfully exported versions;
every other field (`info`) is the original's. -/
theorem C8_model_json_document (env : Env) (er : Bool) (stages : List String)
    (dir name : String) (orig : RegisteredModel) (versions : List ModelVersion)
    (m : List ManifestEntry)
    (hh : env.httpGetModel = Except.ok orig)
    (hsv : env.searchVersions = Except.ok versions)
    (hok : (_export_model env er stages dir name).result = Except.ok m) :
    Event.writeJson (posixJoin dir "model.json")
        ⟨orig.info, successEnriched env er dir stages versions⟩ ∈
      (_export_model env er stages dir name).events := by
  obtain ⟨model, versions', st', hh', hsv', hl, heq⟩ :=
    _export_model_ok_destruct env er stages dir name m hok
  rw [hh] at hh'
  injection hh' with hm0
  subst hm0
  rw [hsv] at hsv'
  injection hsv' with hv
  subst hv
  have hspec := exportLoop_none_spec env er stages dir versions _ st' hl
  rw [heq]
  dsimp only
  have hlatest : st'.latest = successEnriched env er dir stages versions := by
    rw [hspec.2]
    simp [successEnriched]
  rw [hlatest]
  exact List.mem_append_right _ (by simp)

/-- C8 witness: a concrete successful run writes the fetched descriptor
with `latest_versions` holding exactly the one enriched success. -/
theorem C8_model_json_document_witness :
    (envC8w.httpGetModel = Except.ok ⟨"model-meta", []⟩ ∧
      envC8w.searchVersions = Except.ok [⟨"1", "Production", "r1"⟩] ∧
      (_export_model envC8w true [] "out" "m").result =
        Except.ok [⟨"1", "Production", "r1"⟩]) ∧
    Event.writeJson (posixJoin "out" "model.json")
        ⟨"model-meta", successEnriched envC8w true "out" [] [⟨"1", "Production", "r1"⟩]⟩ ∈
      (_export_model envC8w true [] "out" "m").events := by
  have h1 : envC8w.httpGetModel = Except.ok ⟨"model-meta", []⟩ := rfl
  have h2 : envC8w.searchVersions = Except.ok [⟨"1", "Production", "r1"⟩] := rfl
  have h3 : (_export_model envC8w true [] "out" "m").result =
      Except.ok [⟨"1", "Production", "r1"⟩] := by decide
  exact ⟨⟨h1, h2, h3⟩,
    C8_model_json_document envC8w true [] "out" "m" _ _ _ h1 h2 h3⟩

/-- C9 counterexample: the directory create does NOT precede the registry
fetch.  In a concrete fully successful run both events occur, but the
`mkdirs` call comes after the `registered-models/get` fetch in the trace. -/
theorem C9_counterexample :
    (Event.mkdirs "out" ∈ (_export_model envC9 true [] "out" "m").events ∧
      Event.httpGetModel "m" ∈ (_export_model envC9 true [] "out" "m").events) ∧
    ¬ ((_export_model envC9 true [] "out" "m").events.indexOf (Event.mkdirs "out") <
        (_export_model envC9 true [] "out" "m").events.indexOf
          (Event.httpGetModel "m")) := by decide

/-- C9 (amended): the internal procedure resolves the filesystem handle
for the output directory first, then fetches the registered-model
descriptor, and only then performs the directory create: whenever the
fetch succeeds, the trace starts with exactly these three calls in that
order. -/
theorem C9_fetch_precedes_mkdirs (env : Env) (er : Bool) (stages : List String)
    (dir name : String) (model : RegisteredModel)
    (h1 : env.getFilesystem = Except.ok ())
    (h2 : env.httpGetModel = Except.ok model) :
    (_export_model env er stages dir name).events.take 3 =
      [Event.getFilesystem dir, Event.httpGetModel name, Event.mkdirs dir] := by
  cases hmk : env.mkdirs with
  | error e => simp [_export_model, h1, h2, hmk]
  | ok u2 =>
    cases hsv : env.searchVersions with
    | error e => simp [_export_model, h1, h2, hmk, hsv]
    | ok versions =>
      obtain ⟨tail, ht, _, _⟩ := exportLoop_events_spec env er stages dir versions
        ⟨[], [], 0, [Event.getFilesystem dir, Event.httpGetModel name,
                     Event.mkdirs dir, Event.searchVersions name]⟩
      cases hl : exportLoop env er stages dir versions
          ⟨[], [], 0, [Event.getFilesystem dir, Event.httpGetModel name,
                       Event.mkdirs dir, Event.searchVersions name]⟩ with
      | mk st1 err =>
        rw [hl] at ht
        dsimp only at ht
        simp only [_export_model, h1, h2, hmk, hsv, List.singleton_append,
          List.cons_append, List.nil_append]
        rw [hl]
        cases err with
        | some e =>
          dsimp only
          rw [ht]
          rfl
        | none =>
          cases hwj : env.writeJson with
          | error e =>
            dsimp only
            rw [ht, List.append_assoc]
            rfl
          | ok u3 =>
            dsimp only
            rw [ht, List.append_assoc]
            rfl

/-- C9 witness: in a concrete run the trace begins with the filesystem
resolve, then the registry fetch, then the directory create. -/
theorem C9_fetch_precedes_mkdirs_witness :
    (envC9.getFilesystem = Except.ok () ∧
      envC9.httpGetModel = Except.ok ⟨"model-meta", []⟩) ∧
    (_export_model envC9 true [] "out" "m").events.take 3 =
      [Event.getFilesystem "out", Event.httpGetModel "m", Event.mkdirs "out"] :=
  ⟨⟨rfl, rfl⟩, C9_fetch_precedes_mkdirs envC9 true [] "out" "m" ⟨"model-meta", []⟩ rfl rfl⟩
